import Mathlib

/-
Verification of the dictionary-based multilingual text compressor
(compression_engine.py: LZW77Compressor, MultilingualDictionary,
HybridLZW77Compressor).

Modelling conventions:
- A Python str is a List Char (a sequence of Unicode scalar values).
- A Python bytes value is a List Nat, each element intended in 0..255.
- A Python dict is an association list whose most recent binding wins:
  insertion conses the new pair in front, and lookup returns the first
  binding found.  This is lookup-equivalent to dict semantics; no code
  in the engine iterates over or measures a dictionary, so lookup
  behaviour is all that matters.
- Exceptions (KeyError, IndexError, the ValueError raised on an invalid
  code, and the wrapping ValueErrors of the hybrid facade) are modelled
  with Except over the PyErr type below.
- unicodedata.normalize("NFC", .) is an external library call; it is
  passed in as an arbitrary function parameter called nfc.  Concrete
  evaluations instantiate it with id, which is valid for inputs that
  are already NFC-composed (all concrete inputs used here are).
- struct.pack(">H")/(">I") are modelled for in-range values; the codes
  produced by the engine under the default configuration fit in 16 bits.
-/

/-- Python errors raised by the engine, plus the two wrapper errors the
hybrid facade raises around inner failures. -/
inductive PyErr where
  | keyError : PyErr
  | indexError : PyErr
  | invalidCode : PyErr
  | compressionFailed : PyErr → PyErr
  | decompressionFailed : PyErr → PyErr
deriving DecidableEq

/-- The text encodings modelled (the configured self.encoding of the
engine); the system uses utf-8 by default, latin-1 is the single-byte
codec of the supported set. -/
inductive PyEncoding where
  | utf8 : PyEncoding
  | latin1 : PyEncoding
deriving DecidableEq

/-- bytes([i]).decode(encoding, errors=replace) for a single byte value
i < 256: under utf-8 the bytes 0..127 decode to themselves and every
byte 128..255 is invalid on its own, so errors=replace turns it into
U+FFFD; under latin-1 every byte decodes to the code point of the same
value.  Note errors=replace means no UnicodeDecodeError is ever raised,
so the except-branch of reset_dictionary is dead code. -/
def byteDecodeReplace : PyEncoding → Nat → Char
  | .utf8, i => if i < 128 then Char.ofNat i else '�'
  | .latin1, i => Char.ofNat i

/-- The mutable dictionary state of LZW77Compressor: the forward map
self.dictionary (string to code), the reverse map
self.reverse_dictionary (code to string) and self.next_code. -/
structure LZWState where
  dictionary : List (List Char × Nat)
  reverse_dictionary : List (Nat × List Char)
  next_code : Nat
deriving DecidableEq

/-- First-binding-wins association lookup (Python dict read d[k]). -/
def alookup {α β : Type} [DecidableEq α] : List (α × β) → α → Option β
  | [], _ => none
  | (k, v) :: r, k' => if k' = k then some v else alookup r k'

/-- Read of self.dictionary[s]. -/
def flookup (st : LZWState) (s : List Char) : Option Nat :=
  alookup st.dictionary s

/-- Read of self.reverse_dictionary[c]. -/
def rlookup (st : LZWState) (c : Nat) : Option (List Char) :=
  alookup st.reverse_dictionary c

/-- dictionary[key] = code; reverse_dictionary[code] = key (no counter
change): the paired write used by the byte loop of reset_dictionary. -/
def insertPair (st : LZWState) (key : List Char) (code : Nat) : LZWState :=
  { st with
    dictionary := (key, code) :: st.dictionary
    reverse_dictionary := (code, key) :: st.reverse_dictionary }

/-- dictionary[key] = next_code; reverse_dictionary[next_code] = key;
next_code += 1: the insertion step used everywhere after reset. -/
def insertAt (st : LZWState) (key : List Char) : LZWState :=
  { dictionary := (key, st.next_code) :: st.dictionary
    reverse_dictionary := (st.next_code, key) :: st.reverse_dictionary
    next_code := st.next_code + 1 }

/-- LZW77Compressor.reset_dictionary: clear both maps, insert the
single-character decoding of every byte value 0..255 (with
errors=replace semantics, see byteDecodeReplace), then set next_code
to 256. -/
def reset_dictionary (enc : PyEncoding) : LZWState :=
  let st0 : LZWState := { dictionary := [], reverse_dictionary := [], next_code := 0 }
  let st1 := (List.range 256).foldl
    (fun st i => insertPair st [byteDecodeReplace enc i] i) st0
  { st1 with next_code := 256 }

/-- Lines 52-63 of compress: if the current character is not a forward
key, insert it at next_code when there is room, otherwise reset the
whole dictionary and insert the character into the fresh generation
(the fresh insert happens without a capacity check, as in the source). -/
def ensureChar (reset : LZWState) (maxSize : Nat) (st : LZWState) (ch : Char) : LZWState :=
  if (flookup st [ch]).isNone then
    if st.next_code < maxSize then
      insertAt st [ch]
    else
      if (flookup reset [ch]).isNone then insertAt reset [ch] else reset
  else st

/-- One iteration of the character loop of LZW77Compressor.compress
(lines 50-79); state is (dictionary state, current_string, result).
The lookup self.dictionary[current_string] raises KeyError when the
running match is no longer a key (possible after a mid-loop reset). -/
def compress_step (reset : LZWState) (maxSize : Nat)
    (acc : LZWState × List Char × List Nat) (ch : Char) :
    Except PyErr (LZWState × List Char × List Nat) :=
  let st := ensureChar reset maxSize acc.1 ch
  let cur := acc.2.1
  let res := acc.2.2
  let ns := cur ++ [ch]
  if (flookup st ns).isSome then
    .ok (st, ns, res)
  else
    match flookup st cur with
    | none => .error .keyError
    | some code =>
      let st' := if st.next_code < maxSize then insertAt st ns else reset
      .ok (st', [ch], res ++ [code])

/-- Big-endian 2-byte packing struct.pack(">H", c), for c < 65536. -/
def be2 (c : Nat) : List Nat := [c / 256 % 256, c % 256]

/-- Big-endian 4-byte packing struct.pack(">I", n), for n < 2^32. -/
def be4 (n : Nat) : List Nat :=
  [n / 16777216 % 256, n / 65536 % 256, n / 256 % 256, n % 256]

/-- Big-endian value of a byte list (struct.unpack of the same width). -/
def beVal (l : List Nat) : Nat := l.foldl (fun a b => a * 256 + b) 0

/-- LZW77Compressor._encode_codes: 4-byte big-endian code count,
4-byte big-endian (next_code - 256), then each code as 2 bytes
big-endian in emission order. -/
def encode_codes (codes : List Nat) (nextCode : Nat) : List Nat :=
  be4 codes.length ++ be4 (nextCode - 256) ++ codes.flatMap be2

/-- The bounded read loop of _decode_codes: for i in range(num), read
the 2-byte code at offset 2*i while it fits, else break. -/
def readCodesAux (cd : List Nat) (i : Nat) : Nat → List Nat
  | 0 => []
  | num + 1 =>
    if i * 2 + 2 ≤ cd.length then
      (cd.getD (i * 2) 0 * 256 + cd.getD (i * 2 + 1) 0) :: readCodesAux cd (i + 1) num
    else []

/-- LZW77Compressor._decode_codes: inputs shorter than the 8-byte
header yield an empty code list; otherwise the declared count of
2-byte codes is read from offset 8, silently stopping early if the
payload is shorter than declared. -/
def decode_codes (data : List Nat) : List Nat :=
  if data.length < 8 then []
  else readCodesAux (data.drop 8) 0 (beVal (data.take 4))

/-- LZW77Compressor.compress (lines 36-84), parameterized by the reset
state so that the hybrid subclass override of reset_dictionary is
honoured by the inherited method: early return of b"" on empty input,
NFC normalization, the character loop, the final emission of the
running match, and framing via _encode_codes. -/
def compress (reset : LZWState) (maxSize : Nat)
    (nfc : List Char → List Char) (text : List Char) : Except PyErr (List Nat) :=
  if text = [] then .ok []
  else
    match (nfc text).foldlM (compress_step reset maxSize) (reset, ([] : List Char), ([] : List Nat)) with
    | .error e => .error e
    | .ok (st, cur, res) =>
      if cur = [] then .ok (encode_codes res st.next_code)
      else
        match flookup st cur with
        | none => .error .keyError
        | some code => .ok (encode_codes (res ++ [code]) st.next_code)

/-- Resolution of one code after the first during decompress
(lines 103-109): a known reverse entry yields its string; an unknown
code equal to the current next_code yields previous + previous[0]
(the self-referential LZW case, raising KeyError or IndexError if the
previous entry is missing or empty); any other unknown code raises
ValueError("Invalid code in compressed data"). -/
def decodeResolve (st : LZWState) (oldCode : Nat) (code : Nat) : Except PyErr (List Char) :=
  match rlookup st code with
  | some s => .ok s
  | none =>
    if code = st.next_code then
      match rlookup st oldCode with
      | some (c :: cs) => .ok ((c :: cs) ++ [c])
      | some [] => .error .indexError
      | none => .error .keyError
    else .error .invalidCode

/-- The dictionary-growth step of decompress (lines 112-123): build
new_entry = reverse_dictionary[old_code] + string[0] and insert it at
next_code; when the dictionary is full, reset first and then build
new_entry against the fresh generation (where reverse_dictionary
[old_code] may raise KeyError, as in the source). -/
def decompressReinsert (reset : LZWState) (maxSize : Nat)
    (st : LZWState) (oldCode : Nat) (chunk : List Char) : Except PyErr LZWState :=
  if st.next_code < maxSize then
    match rlookup st oldCode with
    | none => .error .keyError
    | some prev =>
      match chunk with
      | [] => .error .indexError
      | c0 :: _ => .ok (insertAt st (prev ++ [c0]))
  else
    match rlookup reset oldCode with
    | none => .error .keyError
    | some prev =>
      match chunk with
      | [] => .error .indexError
      | c0 :: _ => .ok (insertAt reset (prev ++ [c0]))

/-- The loop over codes[1:] of decompress (lines 103-126), carrying the
dictionary state, old_code and the accumulated output chunks. -/
def decompressLoop (reset : LZWState) (maxSize : Nat) :
    LZWState → Nat → List (List Char) → List Nat → Except PyErr (List (List Char))
  | _, _, acc, [] => .ok acc
  | st, oldCode, acc, code :: rest =>
    match decodeResolve st oldCode code with
    | .error e => .error e
    | .ok chunk =>
      match decompressReinsert reset maxSize st oldCode chunk with
      | .error e => .error e
      | .ok st' => decompressLoop reset maxSize st' code (acc ++ [chunk]) rest

/-- LZW77Compressor.decompress (lines 86-127), parameterized by the
reset state: empty bytes give the empty string, the frame is unpacked
by _decode_codes, the first code is read straight from the reverse
dictionary (KeyError when absent), and the remaining codes run through
the decode loop; the chunks are joined in order. -/
def decompress (reset : LZWState) (maxSize : Nat) (data : List Nat) :
    Except PyErr (List Char) :=
  if data = [] then .ok []
  else
    match decode_codes data with
    | [] => .ok []
    | oldCode :: rest =>
      match rlookup reset oldCode with
      | none => .error .keyError
      | some s0 =>
        match decompressLoop reset maxSize reset oldCode [s0] rest with
        | .error e => .error e
        | .ok chunks => .ok chunks.flatten

/-- Number of bytes of one character under str.encode of the configured
encoding: utf-8 uses 1, 2, 3 or 4 bytes by code point range; latin-1
uses one byte per character (for characters below 256; larger ones
would raise in Python and do not occur in the inputs considered). -/
def encodedCharLen : PyEncoding → Char → Nat
  | .utf8, c =>
    if c.toNat < 128 then 1
    else if c.toNat < 2048 then 2
    else if c.toNat < 65536 then 3
    else 4
  | .latin1, _ => 1

/-- len(text.encode(encoding)). -/
def encodedLen (enc : PyEncoding) (text : List Char) : Nat :=
  (text.map (encodedCharLen enc)).sum

/-- The record returned by get_compression_stats; ratio_value models
the float field compression_ratio with exact rational arithmetic, and
space_saved is an integer since it can be negative for tiny inputs. -/
structure CompressionStats where
  original_size : Nat
  compressed_size : Nat
  ratio_value : Rat
  space_saved : Int
deriving DecidableEq

/-- round(x, 2) modelled on exact rationals: round to the nearest
multiple of 1/100. -/
def round2 (q : Rat) : Rat := (round (q * 100) : Int) / 100

/-- LZW77Compressor.get_compression_stats (lines 159-182): sizes are
the encoded byte length of the original text and the frame length; a
zero-length original short-circuits to zero ratio and zero saving;
otherwise compression_ratio = (1 - compressed/original) * 100 rounded
to two decimals and space_saved = original - compressed. -/
def get_compression_stats (enc : PyEncoding) (text : List Char) (data : List Nat) :
    CompressionStats :=
  let o := encodedLen enc text
  let c := data.length
  if o = 0 then
    { original_size := 0, compressed_size := c, ratio_value := 0, space_saved := 0 }
  else
    { original_size := o
      compressed_size := c
      ratio_value := round2 ((1 - (c : Rat) / (o : Rat)) * 100)
      space_saved := (o : Int) - (c : Int) }

/-- The whitespace characters matched by a Python regex class
backslash-s on str, which is also the set stripped by str.strip():
ASCII whitespace, the C1 separators, NEL, NBSP and the Unicode space
and line separators. -/
def isPySpace (c : Char) : Bool :=
  ([9, 10, 11, 12, 13, 28, 29, 30, 31, 32, 133, 160, 5760,
    8192, 8193, 8194, 8195, 8196, 8197, 8198, 8199, 8200, 8201, 8202,
    8232, 8233, 8239, 8287, 12288] : List Nat).contains c.toNat

/-- Helper for collapseRuns: the boolean records whether the previous
character was part of a run being collapsed (in which case further run
characters are dropped instead of emitting another replacement). -/
def collapseRunsAux (p : Char → Bool) (r : Char) : Bool → List Char → List Char
  | _, [] => []
  | inRun, c :: cs =>
    if p c then
      if inRun then collapseRunsAux p r true cs
      else r :: collapseRunsAux p r true cs
    else c :: collapseRunsAux p r false cs

/-- re.sub of one-or-more repetitions of the class p by the single
character r: every maximal run of characters satisfying p is replaced
by one copy of r, other characters are kept. -/
def collapseRuns (p : Char → Bool) (r : Char) (l : List Char) : List Char :=
  collapseRunsAux p r false l

/-- str.strip(): drop leading and trailing whitespace. -/
def pyStrip (p : Char → Bool) (l : List Char) : List Char :=
  ((l.dropWhile p).reverse.dropWhile p).reverse

/-- HybridLZW77Compressor.preprocess_text (lines 230-237): NFC
normalization, then the whitespace-run substitution, then the
newline-run substitution, then strip. -/
def preprocess_text (nfc : List Char → List Char) (t : List Char) : List Char :=
  pyStrip isPySpace
    (collapseRuns (fun c => c == '\n') '\n'
      (collapseRuns isPySpace ' ' (nfc t)))

/-- MultilingualDictionary.common_words, transcribed in source order
(the Python value is a set literal; duplicate literals such as the
repeated le, de, et, en, un collapse, and iteration order of the set
is unspecified, so this list is one faithful enumeration; every result
proved below depends only on membership and on the number of distinct
entries, not on the order). -/
def common_words : List (List Char) :=
  ["the".data, "and".data, "is".data, "in".data, "to".data, "of".data, "a".data,
   "that".data, "it".data, "with".data, "for".data, "as".data, "was".data,
   "on".data, "are".data,
   "el".data, "la".data, "de".data, "que".data, "y".data, "en".data, "un".data,
   "es".data, "se".data, "no".data, "te".data, "lo".data, "le".data, "da".data,
   "su".data,
   "le".data, "de".data, "et".data, "à".data, "un".data, "il".data, "être".data,
   "et".data, "en".data, "avoir".data, "que".data, "pour".data, "dans".data,
   "ce".data, "son".data,
   "der".data, "die".data, "und".data, "in".data, "den".data, "von".data,
   "zu".data, "das".data, "mit".data, "sich".data, "des".data, "auf".data,
   "für".data, "ist".data, "im".data,
   "o".data, "a".data, "do".data, "da".data, "em".data, "um".data, "para".data,
   "é".data, "com".data, "não".data, "uma".data, "os".data, "no".data,
   "se".data, "na".data,
   "il".data, "di".data, "che".data, "è".data, "e".data, "la".data, "per".data,
   "una".data, "in".data, "del".data, "un".data, "da".data, "essere".data,
   "con".data, "su".data,
   "и".data, "в".data, "не".data, "на".data, "я".data, "быть".data, "он".data,
   "с".data, "а".data, "как".data, "по".data, "это".data, "она".data, "к".data,
   "но".data,
   "的".data, "一".data, "是".data, "在".data, "不".data, "了".data, "有".data,
   "和".data, "人".data, "这".data, "中".data, "大".data, "为".data, "上".data,
   "个".data,
   "في".data, "من".data, "إلى".data, "على".data, "أن".data, "هذا".data,
   "هذه".data, "التي".data, "الذي".data, "كان".data, "كل".data, "عن".data,
   "مع".data, "أو".data, "كما".data]

/-- MultilingualDictionary.common_patterns, transcribed in source order
(a set literal of distinct strings; the brace pair, the double-quote
pair and the single-quote pair are written by code point). -/
def common_patterns : List (List Char) :=
  [". ".data, ", ".data, "; ".data, ": ".data, "! ".data, "? ".data,
   "\n".data, "\r\n".data, "\t".data, "  ".data,
   "()".data, "[]".data, [Char.ofNat 123, Char.ofNat 125],
   [Char.ofNat 34, Char.ofNat 34], [Char.ofNat 39, Char.ofNat 39],
   "--".data, "...".data, " - ".data, " / ".data]

/-- list(common_words) + list(common_patterns) as iterated by the
hybrid reset (line 222). -/
def all_patterns : List (List Char) := common_words ++ common_patterns

/-- HybridLZW77Compressor.reset_dictionary (lines 219-228): the base
reset, then every pattern not already a forward key is inserted at
next_code while next_code < max_dict_size. -/
def hybrid_reset_dictionary (enc : PyEncoding) (maxSize : Nat) : LZWState :=
  all_patterns.foldl
    (fun st p =>
      if (flookup st p).isNone && decide (st.next_code < maxSize) then insertAt st p
      else st)
    (reset_dictionary enc)

/-- HybridLZW77Compressor.compress (lines 239-245): preprocess, then
the inherited compress (which resets through the hybrid override);
any inner failure is re-raised as ValueError("Compression failed"). -/
def hybrid_compress (enc : PyEncoding) (maxSize : Nat)
    (nfc : List Char → List Char) (text : List Char) : Except PyErr (List Nat) :=
  match compress (hybrid_reset_dictionary enc maxSize) maxSize nfc
      (preprocess_text nfc text) with
  | .ok r => .ok r
  | .error e => .error (.compressionFailed e)

/-- HybridLZW77Compressor.decompress (lines 247-252): the inherited
decompress through the hybrid reset; any inner failure is re-raised as
ValueError("Decompression failed"). -/
def hybrid_decompress (enc : PyEncoding) (maxSize : Nat) (data : List Nat) :
    Except PyErr (List Char) :=
  match decompress (hybrid_reset_dictionary enc maxSize) maxSize data with
  | .ok r => .ok r
  | .error e => .error (.decompressionFailed e)

/-- The second 4-byte header field of a successfully produced frame
(zero for an error result); used to state facts about the diagnostic
field of _encode_codes. -/
def frameField2 : Except PyErr (List Nat) → Nat
  | .ok f => beVal ((f.drop 4).take 4)
  | .error _ => 0

/-- The map-consistency predicate with an explicit code bound: every
readable forward binding (string s currently mapping to code c) has a
matching reverse binding and its code is below the bound. -/
def BoundOk (st : LZWState) (n : Nat) : Prop :=
  ∀ s c, flookup st s = some c → rlookup st c = some s ∧ c < n

/-- The part of the spec bijection that the code maintains: the forward
map agrees with the reverse map (reverse of the code of s is s again),
and all live codes are below next_code.  This makes the forward map
injective; the reverse map however is NOT injective over the active
range in general (see the C3 counterexample). -/
def FwdRevOk (st : LZWState) : Prop := BoundOk st st.next_code

theorem alookup_cons {α β : Type} [DecidableEq α] (k : α) (v : β) (r : List (α × β)) (k' : α) :
    alookup ((k, v) :: r) k' = if k' = k then some v else alookup r k' := rfl

/-- Inserting a fresh pairing at exactly the bound preserves map
consistency and raises the bound by one. -/
theorem insertPair_boundOk {st : LZWState} {n : Nat} (h : BoundOk st n)
    (key : List Char) : BoundOk (insertPair st key n) (n + 1) := by
  intro s c hc
  unfold flookup insertPair at hc
  rw [alookup_cons] at hc
  unfold rlookup insertPair
  rw [alookup_cons]
  by_cases hs : s = key
  · rw [if_pos hs] at hc
    have hcn : c = n := (Option.some.inj hc).symm
    subst hcn
    rw [if_pos rfl, hs]
    exact ⟨rfl, Nat.lt_succ_self c⟩
  · rw [if_neg hs] at hc
    have h2 := h s c hc
    have hcn : c ≠ n := Nat.ne_of_lt h2.2
    rw [if_neg hcn]
    exact ⟨h2.1, Nat.lt_succ_of_lt h2.2⟩

/-- insertAt preserves the forward/reverse consistency invariant. -/
theorem insertAt_fwdRevOk {st : LZWState} (h : FwdRevOk st) (key : List Char) :
    FwdRevOk (insertAt st key) := by
  have h2 := insertPair_boundOk h key
  intro s c hc
  exact h2 s c hc

/-- A property preserved by every step of a fold is preserved by the
whole fold. -/
theorem foldl_preserve {α σ : Type} (P : σ → Prop) (f : σ → α → σ)
    (hf : ∀ st x, P st → P (f st x)) : ∀ (l : List α) (st : σ), P st → P (l.foldl f st) := by
  intro l
  induction l with
  | nil => intro st h; exact h
  | cons x xs ih => intro st h; exact ih (f st x) (hf st x h)

/-- The byte loop of reset_dictionary keeps the two maps consistent:
inserting codes a, a+1, ..., a+b-1 in order on top of a state whose
live codes are below a gives a state whose live codes are below a+b. -/
theorem resetLoop_boundOk (enc : PyEncoding) :
    ∀ (b a : Nat) (st : LZWState), BoundOk st a →
      BoundOk ((List.range' a b).foldl
        (fun st i => insertPair st [byteDecodeReplace enc i] i) st) (a + b) := by
  intro b
  induction b with
  | zero => intro a st h; simpa using h
  | succ b ih =>
    intro a st h
    rw [List.range'_succ a b 1, List.foldl_cons]
    have h2 := insertPair_boundOk h [byteDecodeReplace enc a]
    have h3 := ih (a + 1) _ h2
    have harith : a + 1 + b = a + (b + 1) := by omega
    rw [harith] at h3
    exact h3

/-- Setting the counter to a bound valid for the maps gives the
invariant. -/
theorem boundOk_set_next (st : LZWState) (n : Nat) (h : BoundOk st n) :
    FwdRevOk { st with next_code := n } :=
  fun s c hc => h s c hc

/-- reset_dictionary produces a consistent pair of maps. -/
theorem reset_dictionary_fwdRevOk (enc : PyEncoding) : FwdRevOk (reset_dictionary enc) := by
  have hempty : BoundOk { dictionary := [], reverse_dictionary := [], next_code := 0 } 0 := by
    intro s c hc
    simp [flookup, alookup] at hc
  have h := resetLoop_boundOk enc 256 0 _ hempty
  rw [← List.range_eq_range' 256] at h
  show FwdRevOk { (List.range 256).foldl
    (fun st i => insertPair st [byteDecodeReplace enc i] i)
    { dictionary := [], reverse_dictionary := [], next_code := 0 } with next_code := 256 }
  exact boundOk_set_next _ _ h

/-- The hybrid reset produces a consistent pair of maps. -/
theorem hybrid_reset_fwdRevOk (enc : PyEncoding) (maxSize : Nat) :
    FwdRevOk (hybrid_reset_dictionary enc maxSize) := by
  unfold hybrid_reset_dictionary
  apply foldl_preserve FwdRevOk
  · intro st p h
    by_cases hcond : ((flookup st p).isNone && decide (st.next_code < maxSize)) = true
    · rw [if_pos hcond]; exact insertAt_fwdRevOk h p
    · rw [if_neg hcond]; exact h
  · exact reset_dictionary_fwdRevOk enc

/-- The character-admission step of compress preserves map
consistency. -/
theorem ensureChar_fwdRevOk {reset st : LZWState} (maxSize : Nat) (ch : Char)
    (hr : FwdRevOk reset) (h : FwdRevOk st) :
    FwdRevOk (ensureChar reset maxSize st ch) := by
  unfold ensureChar
  by_cases h1 : (flookup st [ch]).isNone
  · rw [if_pos h1]
    by_cases h2 : st.next_code < maxSize
    · rw [if_pos h2]; exact insertAt_fwdRevOk h [ch]
    · rw [if_neg h2]
      by_cases h3 : (flookup reset [ch]).isNone
      · rw [if_pos h3]; exact insertAt_fwdRevOk hr [ch]
      · rw [if_neg h3]; exact hr
  · rw [if_neg h1]; exact h

/-- Every successful iteration of the compress loop leaves the maps
consistent. -/
theorem compress_step_fwdRevOk {reset : LZWState} {maxSize : Nat}
    {acc : LZWState × List Char × List Nat} {ch : Char}
    {st' : LZWState} {cur' : List Char} {res' : List Nat}
    (hr : FwdRevOk reset) (h : FwdRevOk acc.1)
    (hstep : compress_step reset maxSize acc ch = .ok (st', cur', res')) :
    FwdRevOk st' := by
  unfold compress_step at hstep
  have hmid := ensureChar_fwdRevOk maxSize ch hr h
  set st := ensureChar reset maxSize acc.1 ch with hst
  by_cases h1 : (flookup st (acc.2.1 ++ [ch])).isSome
  · rw [if_pos h1] at hstep
    have : st = st' := congrArg (fun x => x.1) (Except.ok.inj hstep)
    rw [← this]
    exact hmid
  · rw [if_neg h1] at hstep
    cases h2 : flookup st acc.2.1 with
    | none => rw [h2] at hstep; exact absurd hstep (by simp)
    | some code =>
      rw [h2] at hstep
      have heq : (if st.next_code < maxSize then insertAt st (acc.2.1 ++ [ch]) else reset) = st' :=
        congrArg (fun x => x.1) (Except.ok.inj hstep)
      rw [← heq]
      by_cases h3 : st.next_code < maxSize
      · rw [if_pos h3]; exact insertAt_fwdRevOk hmid _
      · rw [if_neg h3]; exact hr

/-- Every successful dictionary-growth step of decompress leaves the
maps consistent. -/
theorem decompressReinsert_fwdRevOk {reset st st' : LZWState} {maxSize oldCode : Nat}
    {chunk : List Char} (hr : FwdRevOk reset) (h : FwdRevOk st)
    (hstep : decompressReinsert reset maxSize st oldCode chunk = .ok st') :
    FwdRevOk st' := by
  unfold decompressReinsert at hstep
  by_cases h1 : st.next_code < maxSize
  · rw [if_pos h1] at hstep
    cases h2 : rlookup st oldCode with
    | none => rw [h2] at hstep; exact absurd hstep (by simp)
    | some prev =>
      rw [h2] at hstep
      cases chunk with
      | nil => exact absurd hstep (by simp)
      | cons c0 cs =>
        have : insertAt st (prev ++ [c0]) = st' := Except.ok.inj hstep
        rw [← this]
        exact insertAt_fwdRevOk h _
  · rw [if_neg h1] at hstep
    cases h2 : rlookup reset oldCode with
    | none => rw [h2] at hstep; exact absurd hstep (by simp)
    | some prev =>
      rw [h2] at hstep
      cases chunk with
      | nil => exact absurd hstep (by simp)
      | cons c0 cs =>
        have : insertAt reset (prev ++ [c0]) = st' := Except.ok.inj hstep
        rw [← this]
        exact insertAt_fwdRevOk hr _

/-- C3 (amended): after every reset and after every successful
insertion step of compress and of decompress, the two maps satisfy the
half of the claimed bijection that the code actually maintains: every
readable forward binding (string to code) has a matching reverse
binding at a code below next_code, and consequently no two distinct
strings map to the same code.  (The other half of the claim, that no
two distinct active codes map to the same string, is refuted by the
C3 counterexample.) -/
theorem c3_forward_reverse_consistency :
    (∀ enc, FwdRevOk (reset_dictionary enc)) ∧
    (∀ enc maxSize, FwdRevOk (hybrid_reset_dictionary enc maxSize)) ∧
    (∀ reset maxSize acc ch st' cur' res', FwdRevOk reset → FwdRevOk acc.1 →
       compress_step reset maxSize acc ch = .ok (st', cur', res') → FwdRevOk st') ∧
    (∀ reset maxSize st oldCode chunk st', FwdRevOk reset → FwdRevOk st →
       decompressReinsert reset maxSize st oldCode chunk = .ok st' → FwdRevOk st') ∧
    (∀ st s1 s2 c, FwdRevOk st →
       flookup st s1 = some c → flookup st s2 = some c → s1 = s2) := by
  refine ⟨reset_dictionary_fwdRevOk, hybrid_reset_fwdRevOk, ?_, ?_, ?_⟩
  · intro reset maxSize acc ch st' cur' res' hr h hstep
    exact compress_step_fwdRevOk hr h hstep
  · intro reset maxSize st oldCode chunk st' hr h hstep
    exact decompressReinsert_fwdRevOk hr h hstep
  · intro st s1 s2 c h h1 h2
    have r1 := (h s1 c h1).1
    have r2 := (h s2 c h2).1
    rw [r1] at r2
    exact Option.some.inj r2

/-- Witness for C3: a concrete successful decompress insertion step on
top of the latin-1 reset state, whose result state still satisfies the
invariant. -/
theorem c3_witness : FwdRevOk (insertAt (reset_dictionary .latin1) ['a', 'a']) := by
  have hr := c3_forward_reverse_consistency.1 PyEncoding.latin1
  refine c3_forward_reverse_consistency.2.2.2.1 (reset_dictionary .latin1) 65536
    (reset_dictionary .latin1) 97 ['a'] (insertAt (reset_dictionary .latin1) ['a', 'a'])
    hr hr ?_
  show decompressReinsert (reset_dictionary .latin1) 65536 (reset_dictionary .latin1) 97 ['a'] =
    .ok (insertAt (reset_dictionary .latin1) (['a'] ++ ['a']))
  rfl

set_option maxRecDepth 40000 in
/-- Counterexample for C3 as stated: immediately after
reset_dictionary under the default utf-8 encoding, the reverse mapping
is not injective on the active code range [0, next_code): the distinct
codes 128 and 129 are both active and both map to the replacement
character U+FFFD, because errors=replace turns every invalid byte into
U+FFFD instead of skipping it, so the maps do not form a bijection
over [0, next_code). -/
theorem c3_counterexample :
    rlookup (reset_dictionary .utf8) 128 = some ['�'] ∧
    rlookup (reset_dictionary .utf8) 129 = some ['�'] ∧
    128 < (reset_dictionary .utf8).next_code ∧
    129 < (reset_dictionary .utf8).next_code ∧
    (128 : Nat) ≠ 129 ∧
    ¬ (∀ c1 c2 s, c1 < (reset_dictionary .utf8).next_code →
        c2 < (reset_dictionary .utf8).next_code →
        rlookup (reset_dictionary .utf8) c1 = some s →
        rlookup (reset_dictionary .utf8) c2 = some s → c1 = c2) := by
  have h128 : rlookup (reset_dictionary .utf8) 128 = some ['�'] := by rfl
  have h129 : rlookup (reset_dictionary .utf8) 129 = some ['�'] := by rfl
  have hn : (reset_dictionary .utf8).next_code = 256 := by rfl
  have h1 : (128 : Nat) < (reset_dictionary .utf8).next_code := by rw [hn]; omega
  have h2 : (129 : Nat) < (reset_dictionary .utf8).next_code := by rw [hn]; omega
  refine ⟨h128, h129, h1, h2, by omega, ?_⟩
  intro h
  have := h 128 129 ['�'] h1 h2 h128 h129
  omega

/-- C4: the code does not skip byte values that are invalid as
standalone characters of the configured encoding; under utf-8 every
such byte (128..255) is decoded with errors=replace to U+FFFD and
inserted, so the reverse map sends each of the codes 128..255 to
U+FFFD and the forward map sends U+FFFD to 255 (the last write), while
next_code still ends at 256. -/
theorem c4_invalid_bytes_not_skipped :
    rlookup (reset_dictionary .utf8) 128 = some ['�'] ∧
    rlookup (reset_dictionary .utf8) 200 = some ['�'] ∧
    rlookup (reset_dictionary .utf8) 255 = some ['�'] ∧
    flookup (reset_dictionary .utf8) ['�'] = some 255 ∧
    (reset_dictionary .utf8).next_code = 256 :=
  ⟨rfl, rfl, rfl, rfl, rfl⟩

set_option maxRecDepth 40000 in
/-- C1 fails on the code: for the two-character text a-then-ntilde
(already NFC-composed, so nfc is id on it), the hybrid compressor with
its default configuration emits the code it has just learned for the
new single symbol ntilde; the decoder has no matching rule for
mid-stream single-symbol learning, so that code collides with the
self-referential next_code case and the round trip silently returns
the wrong text aaa instead of the preprocessed input. -/
theorem c1_roundtrip_fails :
    (hybrid_compress .utf8 65536 id "añ".data).bind (hybrid_decompress .utf8 65536) =
      .ok "aaa".data ∧
    preprocess_text id "añ".data = "añ".data ∧
    "aaa".data ≠ "añ".data := by
  refine ⟨by rfl, by rfl, by decide⟩

set_option maxRecDepth 40000 in
/-- C2 fails on the code: with max_dict_size = 256 (so that the
dictionary is full from the start, forcing the reset paths on every
insertion), compressing the two-character text ntilde-then-ydiaeresis
raises KeyError: admitting the second unseen symbol resets the
dictionary, wiping the entry of the running match, whose code is then
looked up for emission. -/
theorem c2_compress_raises :
    compress (reset_dictionary .utf8) 256 id "ñÿ".data = .error .keyError := by
  rfl

/-- C5: each code after the first resolves by exactly the three-way
case analysis of the source (known reverse entry; self-referential
next_code case; otherwise the invalid-code error), the decode loop
stops with that error producing no output, and the hybrid facade
surfaces it wrapped as a decompression failure. -/
theorem c5_decode_code_resolution :
    (∀ st oldCode code s, rlookup st code = some s →
       decodeResolve st oldCode code = .ok s) ∧
    (∀ st oldCode code c cs, rlookup st code = none → code = st.next_code →
       rlookup st oldCode = some (c :: cs) →
       decodeResolve st oldCode code = .ok ((c :: cs) ++ [c])) ∧
    (∀ st oldCode code, rlookup st code = none → code ≠ st.next_code →
       decodeResolve st oldCode code = .error .invalidCode) ∧
    (∀ reset maxSize st oldCode acc code rest e,
       decodeResolve st oldCode code = .error e →
       decompressLoop reset maxSize st oldCode acc (code :: rest) = .error e) ∧
    (∀ enc maxSize data e,
       decompress (hybrid_reset_dictionary enc maxSize) maxSize data = .error e →
       hybrid_decompress enc maxSize data = .error (.decompressionFailed e)) := by
  refine ⟨?_, ?_, ?_, ?_, ?_⟩
  · intro st oldCode code s h
    unfold decodeResolve
    rw [h]
  · intro st oldCode code c cs h1 h2 h3
    unfold decodeResolve
    rw [h1, if_pos h2, h3]
  · intro st oldCode code h1 h2
    unfold decodeResolve
    rw [h1, if_neg h2]
  · intro reset maxSize st oldCode acc code rest e h
    unfold decompressLoop
    rw [h]
  · intro enc maxSize data e h
    unfold hybrid_decompress
    rw [h]

set_option maxRecDepth 40000 in
/-- Witness for C5: the invalid-code branch and its propagation on a
concrete state: code 70000 is unknown to the latin-1 reset state and
differs from its next_code 256, so resolution and the decode loop both
fail with the invalid-code error. -/
theorem c5_witness :
    decodeResolve (reset_dictionary .latin1) 97 70000 = .error .invalidCode ∧
    decompressLoop (reset_dictionary .latin1) 65536 (reset_dictionary .latin1)
      97 [['a']] [70000] = .error .invalidCode := by
  have h3 := c5_decode_code_resolution.2.2.1 (reset_dictionary .latin1) 97 70000
    (by rfl) (by decide)
  exact ⟨h3, c5_decode_code_resolution.2.2.2.1 (reset_dictionary .latin1) 65536
    (reset_dictionary .latin1) 97 [['a']] 70000 [] .invalidCode h3⟩

/-- The length of the bounded code-read loop: it reads the declared
number of codes or as many complete 2-byte groups as remain, whichever
is smaller. -/
theorem readCodesAux_length (cd : List Nat) :
    ∀ (num i : Nat), (readCodesAux cd i num).length = min num (cd.length / 2 - i) := by
  intro num
  induction num with
  | zero => intro i; simp [readCodesAux]
  | succ num ih =>
    intro i
    unfold readCodesAux
    by_cases h : i * 2 + 2 ≤ cd.length
    · rw [if_pos h]
      simp only [List.length_cons, ih (i + 1)]
      omega
    · rw [if_neg h]
      simp only [List.length_nil]
      omega

set_option maxRecDepth 40000 in
/-- C6 fails on the code: decompression does not reject malformed
frames.  A 7-byte input (shorter than the header) decodes to the empty
string without error, and a frame declaring 3 codes with only one
2-byte code in its payload is silently truncated and decodes to the
single character a. -/
theorem c6_counterexample :
    hybrid_decompress .utf8 65536 [0, 0, 0, 0, 0, 0, 0] = .ok [] ∧
    hybrid_decompress .utf8 65536 (be4 3 ++ be4 0 ++ be2 97) = .ok ['a'] := by
  exact ⟨by rfl, by rfl⟩

/-- C6 (amended): no malformed-frame error exists: any input shorter
than 8 bytes yields the empty string without error, and when the
payload holds fewer packed codes than the header declares, the code
list is silently truncated to the complete 2-byte groups present
(length = min of the declared count and the available groups). -/
theorem c6_silent_truncation :
    (∀ reset maxSize data, data.length < 8 →
       decompress reset maxSize data = .ok []) ∧
    (∀ data : List Nat, 8 ≤ data.length →
       (decode_codes data).length =
         min (beVal (data.take 4)) ((data.length - 8) / 2)) := by
  constructor
  · intro reset maxSize data h
    unfold decompress
    have hcodes : decode_codes data = [] := by
      unfold decode_codes
      rw [if_pos h]
    by_cases hd : data = []
    · rw [if_pos hd]
    · rw [if_neg hd, hcodes]
  · intro data h
    unfold decode_codes
    rw [if_neg (by omega)]
    rw [readCodesAux_length]
    rw [List.length_drop]
    omega

/-- Witness for C6 (amended): the two branches applied at concrete
inputs: a 3-byte input decompresses to the empty string, and the
truncated 10-byte frame declaring 3 codes yields exactly one code. -/
theorem c6_witness :
    decompress (reset_dictionary .latin1) 65536 [1, 2, 3] = .ok [] ∧
    (decode_codes (be4 3 ++ be4 0 ++ be2 97)).length = 1 := by
  constructor
  · exact c6_silent_truncation.1 (reset_dictionary .latin1) 65536 [1, 2, 3] (by decide)
  · have h := c6_silent_truncation.2 (be4 3 ++ be4 0 ++ be2 97) (by decide)
    exact h.trans (by decide)

theorem length_be4 (n : Nat) : (be4 n).length = 4 := rfl

theorem beVal_be4 (n : Nat) (h : n < 4294967296) : beVal (be4 n) = n := by
  simp only [beVal, be4, List.foldl_cons, List.foldl_nil]
  omega

theorem flatMap_be2_length (codes : List Nat) :
    (codes.flatMap be2).length = 2 * codes.length := by
  induction codes with
  | nil => simp
  | cons c cs ih =>
    simp only [List.flatMap_cons, List.length_append, ih, be2]
    simp
    omega

/-- Reading back a packed code sequence: if the bytes from offset i*2
onward are exactly the 2-byte big-endian packings of the codes, the
read loop returns the codes unchanged. -/
theorem readCodesAux_extract (cd : List Nat) :
    ∀ (codes : List Nat) (i : Nat), (∀ c ∈ codes, c < 65536) →
      cd.drop (i * 2) = codes.flatMap be2 →
      readCodesAux cd i codes.length = codes := by
  intro codes
  induction codes with
  | nil => intro i h hd; rfl
  | cons c cs ih =>
    intro i h hd
    have hd2 : cd.drop (i * 2) = c / 256 % 256 :: c % 256 :: cs.flatMap be2 := by
      simpa [be2] using hd
    have hlen : i * 2 + 2 ≤ cd.length := by
      have hl := congrArg List.length hd2
      rw [List.length_drop] at hl
      simp only [List.length_cons] at hl
      omega
    have hget0 : cd.getD (i * 2) 0 = c / 256 % 256 := by
      have h0 : cd[i * 2 + 0]? = some (c / 256 % 256) := by
        rw [← List.getElem?_drop, hd2]
        simp
      simp only [List.getD_eq_getElem?_getD]
      simpa using congrArg (fun o => o.getD 0) h0
    have hget1 : cd.getD (i * 2 + 1) 0 = c % 256 := by
      have h1 : cd[i * 2 + 1]? = some (c % 256) := by
        rw [← List.getElem?_drop, hd2]
        simp
      simp only [List.getD_eq_getElem?_getD]
      simpa using congrArg (fun o => o.getD 0) h1
    show readCodesAux cd i (cs.length + 1) = c :: cs
    unfold readCodesAux
    rw [if_pos hlen, hget0, hget1]
    have hc : c / 256 % 256 * 256 + c % 256 = c := by
      have := h c (List.mem_cons_self c cs)
      omega
    rw [hc]
    have hdrop : cd.drop ((i + 1) * 2) = cs.flatMap be2 := by
      have : (i + 1) * 2 = i * 2 + 2 := by omega
      rw [this, ← List.drop_drop, hd2]
      rfl
    rw [ih (i + 1) (fun x hx => h x (List.mem_cons_of_mem c hx)) hdrop]

/-- C7 (amended): the frame layout is as claimed except for the
meaning of the second header field: for n emitted codes the frame is
the 4-byte big-endian n, then the 4-byte big-endian value of
next_code - 256 at the end of the call (not the number of entries
learned during the call), then the n codes as 2-byte big-endian words,
for a total of 8 + 2*n bytes; decoding the frame recovers exactly the
codes. -/
theorem c7_frame_layout :
    ∀ (codes : List Nat) (nextCode : Nat),
      codes.length < 4294967296 → nextCode - 256 < 4294967296 →
      (∀ c ∈ codes, c < 65536) →
      (encode_codes codes nextCode).length = 8 + 2 * codes.length ∧
      beVal ((encode_codes codes nextCode).take 4) = codes.length ∧
      beVal (((encode_codes codes nextCode).drop 4).take 4) = nextCode - 256 ∧
      decode_codes (encode_codes codes nextCode) = codes := by
  intro codes nextCode hn hf hc
  have hlen : (encode_codes codes nextCode).length = 8 + 2 * codes.length := by
    unfold encode_codes
    rw [List.length_append, List.length_append, length_be4, length_be4,
      flatMap_be2_length]
  have htake : (encode_codes codes nextCode).take 4 = be4 codes.length := by
    unfold encode_codes
    rw [List.append_assoc]
    exact List.take_left' (length_be4 codes.length)
  have hdrop4 : (encode_codes codes nextCode).drop 4 =
      be4 (nextCode - 256) ++ codes.flatMap be2 := by
    unfold encode_codes
    rw [List.append_assoc]
    exact List.drop_left' (length_be4 codes.length)
  have hdrop8 : (encode_codes codes nextCode).drop 8 = codes.flatMap be2 := by
    have h48 : (8 : Nat) = 4 + 4 := by omega
    rw [h48, ← List.drop_drop, hdrop4]
    exact List.drop_left' (length_be4 (nextCode - 256))
  refine ⟨hlen, ?_, ?_, ?_⟩
  · rw [htake, beVal_be4 _ hn]
  · rw [hdrop4, List.take_left' (length_be4 (nextCode - 256)), beVal_be4 _ hf]
  · unfold decode_codes
    rw [if_neg (by omega), htake, beVal_be4 _ hn, hdrop8]
    exact readCodesAux_extract _ codes 0 hc (by simp)

/-- Witness for C7 (amended): the frame for the 5 codes 1..5 with a
final next_code of 300 is 18 bytes, its first four bytes decode to 5,
its next four to 44, and unpacking recovers the codes. -/
theorem c7_witness :
    (encode_codes [1, 2, 3, 4, 5] 300).length = 18 ∧
    beVal ((encode_codes [1, 2, 3, 4, 5] 300).take 4) = 5 ∧
    beVal (((encode_codes [1, 2, 3, 4, 5] 300).drop 4).take 4) = 44 ∧
    decode_codes (encode_codes [1, 2, 3, 4, 5] 300) = [1, 2, 3, 4, 5] := by
  have h := c7_frame_layout [1, 2, 3, 4, 5] 300 (by decide) (by decide) (by decide)
  exact ⟨h.1.trans (by decide), h.2.1.trans (by decide), h.2.2.1.trans (by decide), h.2.2.2⟩

set_option maxRecDepth 40000 in
/-- C7 fails on the code as far as the meaning of the second header
field is concerned: compressing the text ab with the hybrid compressor
learns exactly one new entry (the pair ab; the final next_code exceeds
the post-reset next_code by exactly one), yet the second header field
holds 132, the seed count plus one, because the source stores
next_code - 256 which also counts the 131 seed entries of the
generation. -/
theorem c7_counterexample :
    frameField2 (hybrid_compress .utf8 65536 id "ab".data) = 132 ∧
    frameField2 (hybrid_compress .utf8 65536 id "ab".data) =
      ((hybrid_reset_dictionary .utf8 65536).next_code - 256) + 1 ∧
    (hybrid_reset_dictionary .utf8 65536).next_code - 256 = 131 ∧
    frameField2 (hybrid_compress .utf8 65536 id "ab".data) ≠ 1 := by
  refine ⟨by rfl, by rfl, by rfl, by decide⟩

theorem collapseRunsAux_mem (p : Char → Bool) (r : Char) :
    ∀ (l : List Char) (b : Bool) (c : Char),
      c ∈ collapseRunsAux p r b l → c = r ∨ p c = false := by
  intro l
  induction l with
  | nil =>
    intro b c hc
    simp [collapseRunsAux] at hc
  | cons d ds ih =>
    intro b c hc
    unfold collapseRunsAux at hc
    by_cases hd : p d
    · rw [if_pos hd] at hc
      cases b with
      | true => exact ih true c hc
      | false =>
        rcases List.mem_cons.mp hc with h | h
        · left; exact h
        · exact ih true c h
    · rw [if_neg hd] at hc
      rcases List.mem_cons.mp hc with h | h
      · right; rw [h]; exact Bool.eq_false_iff.mpr hd
      · exact ih false c h

theorem collapseRunsAux_eq_self (p : Char → Bool) (r : Char) :
    ∀ (l : List Char) (b : Bool), (∀ c ∈ l, p c = false) →
      collapseRunsAux p r b l = l := by
  intro l
  induction l with
  | nil => intro b _; rfl
  | cons d ds ih =>
    intro b h
    have hd : p d = false := h d (List.mem_cons_self d ds)
    unfold collapseRunsAux
    rw [if_neg (by simp [hd])]
    rw [ih false (fun c hc => h c (List.mem_cons_of_mem d hc))]

theorem pyStrip_mem (p : Char → Bool) (l : List Char) :
    ∀ c ∈ pyStrip p l, c ∈ l := by
  intro c hc
  unfold pyStrip at hc
  rw [List.mem_reverse] at hc
  have h1 := (List.dropWhile_suffix p).subset hc
  rw [List.mem_reverse] at h1
  exact (List.dropWhile_suffix p).subset h1

/-- C8 (amended): preprocess_text is NFC normalization, then the
collapse of every whitespace run to a single space, then strip; the
newline-collapsing substitution of the source is a no-op because it
runs after all whitespace (newlines included) has already been turned
into spaces, so no newline ever survives preprocessing. -/
theorem c8_no_newline_survives :
    ∀ (nfc : List Char → List Char) (t : List Char),
      preprocess_text nfc t =
        pyStrip isPySpace (collapseRuns isPySpace ' ' (nfc t)) ∧
      '\n' ∉ preprocess_text nfc t := by
  intro nfc t
  have hws : ∀ c ∈ collapseRuns isPySpace ' ' (nfc t), (c == '\n') = false := by
    intro c hc
    rcases collapseRunsAux_mem isPySpace ' ' (nfc t) false c hc with h | h
    · rw [h]; decide
    · apply beq_eq_false_iff_ne.mpr
      intro hcn
      rw [hcn] at h
      exact absurd h (by decide)
  have heq : collapseRuns (fun c => c == '\n') '\n' (collapseRuns isPySpace ' ' (nfc t)) =
      collapseRuns isPySpace ' ' (nfc t) :=
    collapseRunsAux_eq_self _ _ _ false hws
  constructor
  · unfold preprocess_text
    rw [heq]
  · intro hmem
    unfold preprocess_text at hmem
    rw [heq] at hmem
    have h1 := pyStrip_mem isPySpace _ '\n' hmem
    rcases collapseRunsAux_mem isPySpace ' ' (nfc t) false '\n' h1 with h | h
    · exact absurd h (by decide)
    · exact absurd h (by decide)

/-- Witness for C8 (amended): on a concrete text holding a newline
run, preprocessing yields no newline. -/
theorem c8_witness : '\n' ∉ preprocess_text id "x\n\ny".data :=
  (c8_no_newline_survives id ("x\n\ny".data)).2

/-- C8 fails on the code in its conclusion that a newline can survive:
the whitespace substitution runs first and replaces the newline of the
input a-newline-b by a space, so the preprocessed output is a-space-b
and contains no newline at all. -/
theorem c8_counterexample :
    preprocess_text id "a\nb".data = "a b".data ∧
    '\n' ∈ "a\nb".data ∧
    '\n' ∉ preprocess_text id "a\nb".data := by
  refine ⟨by rfl, by decide, by decide⟩

/-- C9: get_compression_stats reports the encoded byte length of the
original text and the frame byte length; with a zero-length original
the ratio and the saving are both zero with no division performed;
otherwise the ratio is (1 - compressed/original) * 100 rounded to two
decimals and the saving is original minus compressed. -/
theorem c9_stats_fields :
    ∀ (enc : PyEncoding) (text : List Char) (data : List Nat),
      (get_compression_stats enc text data).original_size = encodedLen enc text ∧
      (get_compression_stats enc text data).compressed_size = data.length ∧
      (encodedLen enc text = 0 →
        (get_compression_stats enc text data).ratio_value = 0 ∧
        (get_compression_stats enc text data).space_saved = 0) ∧
      (encodedLen enc text ≠ 0 →
        (get_compression_stats enc text data).ratio_value =
          round2 ((1 - (data.length : Rat) / (encodedLen enc text : Rat)) * 100) ∧
        (get_compression_stats enc text data).space_saved =
          (encodedLen enc text : Int) - (data.length : Int)) := by
  intro enc text data
  unfold get_compression_stats
  by_cases h : encodedLen enc text = 0
  · simp [h]
  · simp [h]

/-- Witness for C9: the concrete scenario of the claim: a text of 1000
encoded bytes and a 400-byte frame give ratio 60 and saving 600. -/
theorem c9_witness :
    (get_compression_stats .utf8 (List.replicate 1000 'a') (List.replicate 400 0)).ratio_value = 60 ∧
    (get_compression_stats .utf8 (List.replicate 1000 'a') (List.replicate 400 0)).space_saved = 600 := by
  have h1 : encodedCharLen .utf8 'a' = 1 := by decide
  have hlen : encodedLen .utf8 (List.replicate 1000 'a') = 1000 := by
    unfold encodedLen
    rw [List.map_replicate, h1]
    norm_num [List.sum_replicate]
  have h := (c9_stats_fields .utf8 (List.replicate 1000 'a') (List.replicate 400 0)).2.2.2
    (by rw [hlen]; norm_num)
  refine ⟨h.1.trans ?_, h.2.trans ?_⟩
  · rw [hlen, List.length_replicate]
    norm_num [round2, round_eq]
  · rw [hlen, List.length_replicate]
    norm_num

/-- C10: any input shorter than the 8-byte header (the empty byte
string included) makes the frame reader return an empty code list, and
decompress returns the empty string without error. -/
theorem c10_short_input_empty :
    ∀ (reset : LZWState) (maxSize : Nat) (data : List Nat), data.length < 8 →
      decode_codes data = [] ∧ decompress reset maxSize data = .ok [] := by
  intro reset maxSize data h
  have hcodes : decode_codes data = [] := by
    unfold decode_codes
    rw [if_pos h]
  refine ⟨hcodes, ?_⟩
  unfold decompress
  by_cases hd : data = []
  · rw [if_pos hd]
  · rw [if_neg hd, hcodes]

/-- Witness for C10: a concrete 3-byte input decompresses to the empty
string. -/
theorem c10_witness :
    decompress (reset_dictionary .utf8) 65536 [1, 2, 3] = .ok [] :=
  (c10_short_input_empty (reset_dictionary .utf8) 65536 [1, 2, 3] (by decide)).2
